import Mathlib

/-!
Verification of the MCP tool-call hook system of
`src/massgen/mcp_tools/hooks.py` (MassGen).

The development is a shallow embedding of the hook framework:

* `Json` / `Json.dumps` model Python JSON values and `json.dumps` with its
  default separators and `ensure_ascii=True` escaping; numbers are modelled
  as arbitrary-precision integers (the claims exercise no floats).
* `parseMatcher` / `fnmatch` / `patternMatches` embed
  `PatternHook._parse_matcher` and `PatternHook.matches` (which uses
  `fnmatch.fnmatch`: full-string shell-glob matching with `*`, `?`, `[...]`).
* `HookResult`, `HookResult.postInit`, `HookResult.from_dict` embed the
  dataclass, its `__post_init__` synchronisation and `from_dict`.  Python
  `Dict[str, Any]` values are modelled at the precision the engine inspects
  them: `metadata` and `inject` as string-to-string association lists (these
  are only read back as strings), `updated_input` as a JSON object.
* `PyHook` / `PythonCallableHook_execute` embed `PythonCallableHook.execute`:
  the handler is modelled by its resolution (a directly supplied callable, a
  symbolic path whose lazy import succeeds or fails, or an unusable handler)
  and a callable is modelled by its outcome on the received arguments
  (returning a value, raising an uncaught exception, or exceeding the
  configured timeout).
* `ExternalCommandHook` / `ExternalCommandHook_execute` embed
  `ExternalCommandHook.execute`; the subprocess is modelled by its outcome
  (timeout, spawn error, or exit with a return code and the JSON parse of its
  stdout — `json.loads`: `some` for well-formed JSON, `none` for a decode
  error).
* `GHMState`, `register_global_hook`, `register_agent_hook`,
  `get_hooks_for_agent`, `hookLoop` / `executeHooksOn` / `execute_hooks`
  embed `GeneralHookManager`.  Python dicts with insertion order are
  association lists (`alGet` / `alSet`).  A hook seen by the manager
  (`MHook`) is its name, its matcher string, and its `execute` behaviour as
  a function of the arguments it receives (`none` models an uncaught
  exception escaping `execute`, which the manager's per-hook `try/except`
  absorbs).  `executeHooksOn` additionally returns the invocation log — the
  (hook name, arguments) pairs in invocation order — so that theorems can
  speak about which hooks ran and with which arguments.
-/

/-- JSON values as produced/consumed by the hook framework.  Numbers are
modelled as integers (no claim involves floats). -/
inductive Json where
  | null : Json
  | bool (b : Bool) : Json
  | num (n : Int) : Json
  | str (s : String) : Json
  | arr (elems : List Json) : Json
  | obj (fields : List (String × Json)) : Json

/-- One hex digit, lowercase, as in CPython's `\uXXXX` escapes. -/
def hexDigit (n : Nat) : Char :=
  if n < 10 then Char.ofNat ('0'.toNat + n) else Char.ofNat ('a'.toNat + (n - 10))

/-- Four lowercase hex digits. -/
def hex4 (n : Nat) : String :=
  String.mk [hexDigit (n / 4096 % 16), hexDigit (n / 256 % 16), hexDigit (n / 16 % 16), hexDigit (n % 16)]

/-- Escape one character as CPython's `json.dumps` does with
`ensure_ascii=True`: short escapes for the usual control characters, `\uXXXX`
for everything outside the printable ASCII range (surrogate pairs beyond the
BMP). -/
def escapeChar (c : Char) : String :=
  if c = '\\' then "\\\\"
  else if c = '\"' then "\\\""
  else if c = '\n' then "\\n"
  else if c = '\t' then "\\t"
  else if c = '\r' then "\\r"
  else if c = '\x08' then "\\b"
  else if c = '\x0c' then "\\f"
  else if c.toNat < 0x20 ∨ c.toNat > 0x7e then
    if c.toNat < 0x10000 then "\\u" ++ hex4 c.toNat
    else "\\u" ++ hex4 (0xd800 + (c.toNat - 0x10000) / 0x400)
         ++ "\\u" ++ hex4 (0xdc00 + (c.toNat - 0x10000) % 0x400)
  else String.singleton c

/-- String-body escaping of `json.dumps(..., ensure_ascii=True)`. -/
def jsonEscape (s : String) : String :=
  String.join (s.data.map escapeChar)

mutual

/-- `json.dumps` with the default separators `", "` and `": "`. -/
def Json.dumps : Json → String
  | Json.null => "null"
  | Json.bool true => "true"
  | Json.bool false => "false"
  | Json.num n => toString n
  | Json.str s => "\"" ++ jsonEscape s ++ "\""
  | Json.arr elems => "[" ++ dumpsElems elems ++ "]"
  | Json.obj fields => "\x7b" ++ dumpsFields fields ++ "\x7d"

/-- Elements of a JSON array, separated by `", "`. -/
def dumpsElems : List Json → String
  | [] => ""
  | [j] => Json.dumps j
  | j :: rest => Json.dumps j ++ ", " ++ dumpsElems rest

/-- Fields of a JSON object, `"key": value`, separated by `", "`. -/
def dumpsFields : List (String × Json) → String
  | [] => ""
  | [kv] => "\"" ++ jsonEscape kv.1 ++ "\": " ++ Json.dumps kv.2
  | kv :: rest => "\"" ++ jsonEscape kv.1 ++ "\": " ++ Json.dumps kv.2 ++ ", " ++ dumpsFields rest

end

/-- Python string truthiness-relevant whitespace for `str.strip()` (the ASCII
whitespace characters; the claims only exercise spaces). -/
def isPySpace (c : Char) : Bool :=
  c = ' ' || c = '\t' || c = '\n' || c = '\r' || c = '\x0b' || c = '\x0c'

/-- Python `str.strip()` on a character list. -/
def pyStripL (l : List Char) : List Char :=
  ((l.dropWhile isPySpace).reverse.dropWhile isPySpace).reverse

/-- Python `matcher.split("|")` on a character list (the separator is the
single character `|`; `"".split("|") = [""]`, so the empty list maps to
`[[]]`). -/
def splitOnPipe : List Char → List (List Char)
  | [] => [[]]
  | '|' :: t => [] :: splitOnPipe t
  | c :: t =>
    match splitOnPipe t with
    | [] => [[c]]
    | h :: r => (c :: h) :: r

/-- `PatternHook._parse_matcher`: an empty matcher string becomes the single
pattern `"*"`; otherwise the matcher is split on `|`, each piece is stripped,
and pieces that strip to the empty string are dropped. -/
def parseMatcher (matcher : String) : List String :=
  if matcher = "" then ["*"]
  else
    (((splitOnPipe matcher.data).map (fun piece => pyStripL piece)).filter
      (fun piece => piece ≠ [])).map (fun piece => String.mk piece)

/-- Tokens of a compiled glob pattern (what `fnmatch.translate` turns into a
regular expression). -/
inductive GlobTok where
  | star : GlobTok
  | one : GlobTok
  | lit (c : Char) : GlobTok
  | cls (negated : Bool) (body : List Char) : GlobTok

/-- Scan to the closing `]` of a character class; `none` when there is no
closing bracket (the `[` is then a literal). -/
def findClose : List Char → Option (List Char × List Char)
  | [] => none
  | c :: t =>
    if c = ']' then some ([], t)
    else
      match findClose t with
      | some (body, rest) => some (c :: body, rest)
      | none => none

/-- Scan a `[...]` class body after the optional `!` has been consumed: a `]`
in first position is a literal member of the class; then everything up to the
closing `]` is the body. -/
def classTail (negated : Bool) (t : List Char) : Option (Bool × List Char × List Char) :=
  match t with
  | [] => none
  | c2 :: t2 =>
    if c2 = ']' then (findClose t2).map (fun br => (negated, ']' :: br.1, br.2))
    else (findClose (c2 :: t2)).map (fun br => (negated, br.1, br.2))

/-- Split a `[...]` character class (the input starts just after the `[`), as
`fnmatch.translate` scans it: an optional leading `!` negates; a `]` directly
after that is a literal member of the class.  Returns (negated, class body,
rest of the pattern after the closing `]`), or `none` when the class never
closes (the `[` is then a literal). -/
def classSplit (ps : List Char) : Option (Bool × List Char × List Char) :=
  match ps with
  | [] => none
  | c1 :: t1 => if c1 = '!' then classTail true t1 else classTail false (c1 :: t1)

theorem findClose_length : ∀ {t body rest : List Char},
    findClose t = some (body, rest) → rest.length < t.length := by
  intro t
  induction t with
  | nil => intro body rest h; simp [findClose] at h
  | cons c t ih =>
    intro body rest h
    simp only [findClose] at h
    by_cases hc : c = ']'
    · rw [if_pos hc] at h
      injection h with h2
      injection h2 with hb hr
      subst hr
      simp
    · rw [if_neg hc] at h
      cases hfc : findClose t with
      | none => rw [hfc] at h; exact absurd h (by simp)
      | some br =>
        obtain ⟨b2, r2⟩ := br
        rw [hfc] at h
        injection h with h2
        injection h2 with hb hr
        subst hr
        have := ih hfc
        simp only [List.length_cons]
        omega

theorem mapped_findClose_rest {t : List Char} {f : List Char × List Char → Bool × List Char × List Char}
    {neg : Bool} {body rest : List Char}
    (hproj : ∀ br : List Char × List Char, (f br).2.2 = br.2)
    (h : (findClose t).map f = some (neg, body, rest)) : rest.length < t.length := by
  rcases Option.map_eq_some'.mp h with ⟨⟨b2, r2⟩, hfc, hf⟩
  have hr2 := hproj (b2, r2)
  rw [hf] at hr2
  have hr : rest = r2 := hr2
  subst hr
  exact findClose_length hfc

theorem classTail_length : ∀ {b : Bool} {t : List Char} {neg : Bool} {body rest : List Char},
    classTail b t = some (neg, body, rest) → rest.length < t.length := by
  intro b t neg body rest h
  match t with
  | [] => simp [classTail] at h
  | c2 :: t2 =>
    simp only [classTail] at h
    by_cases h2 : c2 = ']'
    · rw [if_pos h2] at h
      have := mapped_findClose_rest (fun br => rfl) h
      simp only [List.length_cons]
      omega
    · rw [if_neg h2] at h
      exact mapped_findClose_rest (fun br => rfl) h

theorem classSplit_length : ∀ {ps : List Char} {neg : Bool} {body rest : List Char},
    classSplit ps = some (neg, body, rest) → rest.length < ps.length := by
  intro ps neg body rest h
  match ps with
  | [] => simp [classSplit] at h
  | c1 :: t1 =>
    simp only [classSplit] at h
    by_cases h1 : c1 = '!'
    · rw [if_pos h1] at h
      have := classTail_length h
      simp only [List.length_cons]
      omega
    · rw [if_neg h1] at h
      exact classTail_length h

/-- Compile a glob pattern into tokens, following `fnmatch.translate`:
`*` and `?` are wildcards, `[...]` is a character class (with `[!...]`
negation and a literal `[` when the class never closes), everything else is a
literal character.  Structural recursion on a fuel bounded below by the
pattern length (each step consumes at least one character — see
`classSplit_length` — so the fuel of `parseGlob` never runs out). -/
def parseGlobF : Nat → List Char → List GlobTok
  | 0, _ => []
  | _, [] => []
  | fuel + 1, c :: ps =>
    if c = '*' then GlobTok.star :: parseGlobF fuel ps
    else if c = '?' then GlobTok.one :: parseGlobF fuel ps
    else if c = '[' then
      match classSplit ps with
      | some (neg, body, rest) => GlobTok.cls neg body :: parseGlobF fuel rest
      | none => GlobTok.lit '[' :: parseGlobF fuel ps
    else GlobTok.lit c :: parseGlobF fuel ps

/-- Compile a glob pattern into tokens (fuel instantiated adequately). -/
def parseGlob (ps : List Char) : List GlobTok := parseGlobF ps.length ps

/-- Membership of a character in a `[...]` class body: single characters,
`a-b` ranges (inclusive; an inverted range matches nothing), a `-` at either
end is a literal. -/
def classMemb (c : Char) : List Char → Bool
  | [] => false
  | [a] => c == a
  | [a, '-'] => c == a || c == '-'
  | a :: '-' :: b :: rest => (a.toNat ≤ c.toNat && c.toNat ≤ b.toNat) || classMemb c rest
  | a :: rest => c == a || classMemb c rest

/-- All suffixes of a character list (including itself and `[]`). -/
def tailsOf : List Char → List (List Char)
  | [] => [[]]
  | c :: t => (c :: t) :: tailsOf t

/-- Full-string glob matching of a compiled pattern against a name: a `*`
consumes any (possibly empty) prefix, `?` any single character, classes and
literals one matching character; the whole name must be consumed (no
partial/substring matches), as `fnmatch`'s anchored regex does. -/
def globTokMatch : List GlobTok → List Char → Bool
  | [], name => name.isEmpty
  | GlobTok.star :: ts, name => (tailsOf name).any (fun suffix => globTokMatch ts suffix)
  | GlobTok.one :: ts, name =>
    match name with
    | [] => false
    | _ :: cs => globTokMatch ts cs
  | GlobTok.lit l :: ts, name =>
    match name with
    | [] => false
    | c :: cs => c == l && globTokMatch ts cs
  | GlobTok.cls neg body :: ts, name =>
    match name with
    | [] => false
    | c :: cs => (classMemb c body != neg) && globTokMatch ts cs

/-- `fnmatch.fnmatch(name, pattern)` (POSIX `normcase` is the identity). -/
def fnmatch (name pattern : String) : Bool :=
  globTokMatch (parseGlob pattern.data) name.data

/-- `PatternHook.matches`: true iff the tool name fully glob-matches at least
one of the parsed sub-patterns. -/
def patternMatches (matcher toolName : String) : Bool :=
  (parseMatcher matcher).any (fun p => fnmatch toolName p)

/-- Association-list lookup: Python `d[k]` / `d.get(k)` / `k in d` on an
insertion-ordered dict. -/
def alGet {α β : Type} [DecidableEq α] (d : List (α × β)) (key : α) : Option β :=
  match d with
  | [] => none
  | kv :: t => if kv.1 = key then some kv.2 else alGet t key

/-- Association-list store: Python `d[k] = v` — update in place when the key
exists (insertion order kept), otherwise append. -/
def alSet {α β : Type} [DecidableEq α] (d : List (α × β)) (key : α) (v : β) : List (α × β) :=
  match d with
  | [] => [(key, v)]
  | kv :: t => if kv.1 = key then (key, v) :: t else kv :: alSet t key v

/-- Python `d.get(k, default)` on a string-valued dict. -/
def dictGetD (d : List (String × String)) (key : String) (dflt : String) : String :=
  (alGet d key).getD dflt

/-- Python `d.get(k)` kept only when truthy (a present, non-empty string) —
the shape of `inj.get("content")` used as a filter. -/
def truthyGet (d : List (String × String)) (key : String) : Option String :=
  match alGet d key with
  | some s => if s = "" then none else some s
  | none => none

/-- Python `a or b` where `a` is an optional string and `b` a string: the
empty string and `None` both fall through to `b`. -/
def pyOr (a : Option String) (b : String) : String :=
  match a with
  | some s => if s = "" then b else s
  | none => b

/-- A PostToolUse injection dict (`inject` field): modelled as a
string-to-string association list — the engine only reads the `content` and
`strategy` keys back as strings. -/
abbrev InjDict := List (String × String)

/-- The `HookResult` dataclass.  `decision` is a plain string, as Python's
unenforced `Literal` annotation is; `metadata` and `inject` are modelled as
string-valued dicts and `updated_input` as a JSON object (the precision at
which the engine reads them). -/
structure HookResult where
  allowed : Bool := true
  metadata : List (String × String) := []
  modified_args : Option String := none
  decision : String := "allow"
  reason : Option String := none
  updated_input : Option (List (String × Json)) := none
  inject : Option InjDict := none

/-- `HookResult.__post_init__`: sync the legacy `allowed` flag with
`decision`.  Every Python construction of a `HookResult` runs this. -/
def HookResult.postInit (r : HookResult) : HookResult :=
  if r.allowed = false then { r with decision := "deny" }
  else if r.decision = "deny" then { r with allowed := false }
  else r

/-- `HookResult.allow()`. -/
def HookResult.allow : HookResult :=
  HookResult.postInit { allowed := true, decision := "allow" }

/-- `HookResult.deny(reason)`. -/
def HookResult.deny (reason : Option String) : HookResult :=
  HookResult.postInit { allowed := false, decision := "deny", reason := reason }

/-- `HookResult.ask(reason)`. -/
def HookResult.ask (reason : Option String) : HookResult :=
  HookResult.postInit { allowed := true, decision := "ask", reason := reason }

/-- The wire dictionary consumed by `HookResult.from_dict`: each field either
present (`some`) or absent (`none`, Python `data.get` default). -/
structure HRDict where
  allowed : Option Bool := none
  metadata : Option (List (String × String)) := none
  modified_args : Option String := none
  decision : Option String := none
  reason : Option String := none
  updated_input : Option (List (String × Json)) := none
  inject : Option InjDict := none

/-- `HookResult.from_dict`: read each field with its `data.get` default and
construct (running `__post_init__`). -/
def HookResult.from_dict (data : HRDict) : HookResult :=
  HookResult.postInit
    { allowed := data.allowed.getD true
      metadata := data.metadata.getD []
      modified_args := data.modified_args
      decision := data.decision.getD "allow"
      reason := data.reason
      updated_input := data.updated_input
      inject := data.inject }

/-- Python truthiness of a JSON value. -/
def pyTruthy : Json → Bool
  | Json.null => false
  | Json.bool b => b
  | Json.num n => n != 0
  | Json.str s => s != ""
  | Json.arr elems => !elems.isEmpty
  | Json.obj fields => !fields.isEmpty

/-- Lookup in a decoded JSON object (Python `data.get(k)`). -/
def jGet (fields : List (String × Json)) (key : String) : Option Json :=
  (fields.find? (fun kv => kv.1 == key)).map (fun kv => kv.2)

/-- Narrow a JSON value to the string the engine will read from it (the
claims only exercise string-valued fields; a non-string here would crash the
Python engine at its use site or compare unequal to every string literal, and
is normalised to the empty string). -/
def jsonAsStr : Json → String
  | Json.str s => s
  | _ => ""

/-- Decode the JSON object printed by a command hook into the wire dict of
`HookResult.from_dict`.  `allowed` is kept at the truthiness precision at
which the engine tests it; `reason`/`modified_args` keep string values (JSON
`null` and absence both become `none`, exactly as `data.get` yields `None`);
`updated_input`/`inject`/`metadata` keep object values. -/
def jsonToHRDict (fields : List (String × Json)) : HRDict :=
  { allowed := (jGet fields "allowed").map pyTruthy
    metadata := (jGet fields "metadata").bind (fun j =>
      match j with
      | Json.obj o => some (o.map (fun kv => (kv.1, jsonAsStr kv.2)))
      | _ => none)
    modified_args := (jGet fields "modified_args").bind (fun j =>
      match j with
      | Json.str s => some s
      | _ => none)
    decision := (jGet fields "decision").map jsonAsStr
    reason := (jGet fields "reason").bind (fun j =>
      match j with
      | Json.str s => some s
      | _ => none)
    updated_input := (jGet fields "updated_input").bind (fun j =>
      match j with
      | Json.obj o => some o
      | _ => none)
    inject := (jGet fields "inject").bind (fun j =>
      match j with
      | Json.obj o => some (o.map (fun kv => (kv.1, jsonAsStr kv.2)))
      | _ => none) }

/-- The value a Python callable hook handler produced: a `HookResult`, a
dict, `None`, or something else entirely (`_normalize_result`'s four cases).  -/
inductive PyResultVal where
  | hres (r : HookResult)
  | dict (d : HRDict)
  | noneVal
  | unknown

/-- Outcome of invoking the handler callable on the event built from the
received arguments: it returns a value, raises an uncaught exception, or
exceeds the configured timeout (`asyncio.TimeoutError`). -/
inductive CallOutcome where
  | returns (v : PyResultVal)
  | raises (msg : String)
  | timesOut

/-- The handler of a `PythonCallableHook`, by how it resolves: a callable
passed directly; a symbolic module-path string whose lazy import either binds
to a callable or fails with an error message; or a handler that is neither a
string nor callable (both `_handler_path` and `_callable` are `None`). -/
inductive PyHandler where
  | direct (f : String → CallOutcome)
  | path (p : String) (imports : Except String (String → CallOutcome))
  | unusable

/-- `PythonCallableHook`: name, matcher, timeout and handler.  (The
constructor accepts no failure-policy flag: there is no `fail_closed`
parameter anywhere in the class.) -/
structure PythonCallableHook where
  name : String
  matcher : String := "*"
  timeout : Nat := 30
  handler : PyHandler

/-- `PythonCallableHook._normalize_result`. -/
def normalize_result (v : PyResultVal) : HookResult :=
  match v with
  | PyResultVal.hres r => r
  | PyResultVal.dict d => HookResult.from_dict d
  | PyResultVal.noneVal => HookResult.allow
  | PyResultVal.unknown => HookResult.allow

/-- The `try` block of `PythonCallableHook.execute` around the callable:
normalise a returned value; fail OPEN (allow) on an uncaught exception; fail
OPEN (allow) on timeout.  This is unconditional — nothing in the class
consults any failure policy. -/
def runCallable (f : String → CallOutcome) (arguments : String) : HookResult :=
  match f arguments with
  | CallOutcome.returns v => normalize_result v
  | CallOutcome.raises _ => HookResult.allow
  | CallOutcome.timesOut => HookResult.allow

/-- `PythonCallableHook.execute`: allow when the matcher does not match;
otherwise lazily import a symbolic handler — returning
deny("Hook import failed: ...") when the import raises — and run the
callable; a hook left with no callable (empty path or unusable handler)
allows. -/
def PythonCallableHook_execute (h : PythonCallableHook) (function_name arguments : String) : HookResult :=
  if patternMatches h.matcher function_name then
    match h.handler with
    | PyHandler.direct f => runCallable f arguments
    | PyHandler.path p imports =>
      if p = "" then HookResult.allow
      else
        match imports with
        | Except.error e => HookResult.deny (some ("Hook import failed: " ++ e))
        | Except.ok f => runCallable f arguments
    | PyHandler.unusable => HookResult.allow
  else HookResult.allow

/-- `ExternalCommandHook`: name, path to the executed script, matcher,
timeout.  (As with the callable hook there is no `fail_closed` parameter.) -/
structure ExternalCommandHook where
  name : String
  handler_path : String
  matcher : String := "*"
  timeout : Nat := 30

/-- Outcome of the spawned subprocess: `communicate` timed out, spawning or
communicating raised, or the process exited with a return code and stdout
whose JSON parse is `some` (well-formed) or `none` (a decode error). -/
inductive ProcOutcome where
  | timesOut
  | raises (msg : String)
  | exited (returncode : Int) (stdoutJson : Option Json)

/-- `ExternalCommandHook.execute`: allow when the matcher does not match;
allow on timeout and on any raised exception; on a NON-ZERO exit code always
allow (the stdout is never parsed); on exit 0 parse stdout as JSON and build
the result via `from_dict` (allow when stdout is not valid JSON, and allow
when it is valid JSON but not an object — `from_dict` then raises inside the
outer `except`, which allows). -/
def ExternalCommandHook_execute (h : ExternalCommandHook) (function_name : String)
    (proc : ProcOutcome) : HookResult :=
  if patternMatches h.matcher function_name then
    match proc with
    | ProcOutcome.timesOut => HookResult.allow
    | ProcOutcome.raises _ => HookResult.allow
    | ProcOutcome.exited returncode stdoutJson =>
      if returncode ≠ 0 then HookResult.allow
      else
        match stdoutJson with
        | some (Json.obj fields) => HookResult.from_dict (jsonToHRDict fields)
        | some _ => HookResult.allow
        | none => HookResult.allow
  else HookResult.allow

/-- `HookType`: the two legacy and two general hook phases. -/
inductive HookType where
  | PRE_CALL : HookType
  | POST_CALL : HookType
  | PRE_TOOL_USE : HookType
  | POST_TOOL_USE : HookType
deriving DecidableEq

/-- A pattern hook as the manager sees it: its name, its matcher string, and
its `execute` behaviour as a function of the arguments it is invoked with
(the tool name and context are fixed for one pipeline run; `none` models an
uncaught exception escaping `execute`, absorbed by the manager's per-hook
`try/except`). -/
structure MHook where
  name : String
  matcher : String
  run : String → Option HookResult

/-- `PatternHook.matches` for a manager-level hook. -/
def MHook.matches (h : MHook) (toolName : String) : Bool :=
  patternMatches h.matcher toolName

/-- A hook with matcher `"*"` that returns the same result whatever arguments
it receives. -/
def constHook (name : String) (r : HookResult) : MHook :=
  ⟨name, "*", fun _ => some r⟩

/-- `GeneralHookManager` state: `_global_hooks`, `_agent_hooks`,
`_agent_overrides`, all insertion-ordered dicts. -/
structure GHMState where
  global_hooks : List (HookType × List MHook)
  agent_hooks : List (String × List (HookType × List MHook))
  agent_overrides : List (String × List (HookType × Bool))

/-- `GeneralHookManager.__init__`. -/
def GHMState.init : GHMState :=
  ⟨[(HookType.PRE_TOOL_USE, []), (HookType.POST_TOOL_USE, [])], [], []⟩

/-- `GeneralHookManager.register_global_hook`: create the phase's list when
missing, then append. -/
def register_global_hook (st : GHMState) (hook_type : HookType) (hook : MHook) : GHMState :=
  let g := if (alGet st.global_hooks hook_type).isNone then alSet st.global_hooks hook_type [] else st.global_hooks
  { st with global_hooks := alSet g hook_type ((alGet g hook_type).getD [] ++ [hook]) }

/-- `GeneralHookManager.register_agent_hook`: initialise both per-agent dicts
on first sight of the agent, create the phase's list when missing, append the
hook, and latch the override flag when `override` is passed (sticky: it is
never reset by a later registration). -/
def register_agent_hook (st : GHMState) (agent_id : String) (hook_type : HookType)
    (hook : MHook) (override : Bool) : GHMState :=
  let st :=
    if (alGet st.agent_hooks agent_id).isNone then
      { st with
        agent_hooks := alSet st.agent_hooks agent_id
          [(HookType.PRE_TOOL_USE, []), (HookType.POST_TOOL_USE, [])]
        agent_overrides := alSet st.agent_overrides agent_id
          [(HookType.PRE_TOOL_USE, false), (HookType.POST_TOOL_USE, false)] }
    else st
  let ah := (alGet st.agent_hooks agent_id).getD []
  let ah := if (alGet ah hook_type).isNone then alSet ah hook_type [] else ah
  let ah := alSet ah hook_type ((alGet ah hook_type).getD [] ++ [hook])
  let st := { st with agent_hooks := alSet st.agent_hooks agent_id ah }
  if override then
    { st with
      agent_overrides := alSet st.agent_overrides agent_id
        (alSet ((alGet st.agent_overrides agent_id).getD []) hook_type true) }
  else st

/-- Whether the registry records an active override for this agent and phase:
the agent id is truthy (present and non-empty) and
`_agent_overrides[agent_id].get(hook_type, False)` is true — the condition
`get_hooks_for_agent` tests. -/
def recordsOverride (st : GHMState) (agent_id : Option String) (hook_type : HookType) : Bool :=
  match agent_id with
  | some a =>
    if a ≠ "" then
      match alGet st.agent_overrides a with
      | some od => (alGet od hook_type).getD false
      | none => false
    else false
  | none => false

/-- The global hook list for a phase, `_global_hooks.get(hook_type, [])`. -/
def globalHooksOf (st : GHMState) (hook_type : HookType) : List MHook :=
  (alGet st.global_hooks hook_type).getD []

/-- The agent's own hook list for a phase (empty for a falsy agent id or an
unknown agent), `_agent_hooks.get(agent_id, ...).get(hook_type, [])`. -/
def agentHooksOf (st : GHMState) (agent_id : Option String) (hook_type : HookType) : List MHook :=
  match agent_id with
  | some a =>
    if a ≠ "" then
      match alGet st.agent_hooks a with
      | some d => (alGet d hook_type).getD []
      | none => []
    else []
  | none => []

/-- `GeneralHookManager.get_hooks_for_agent`: when the agent id is truthy and
an override is recorded for the phase, ONLY the agent's hooks; otherwise the
global hooks followed by the agent's hooks (when the agent id is truthy and
known). -/
def get_hooks_for_agent (st : GHMState) (agent_id : Option String) (hook_type : HookType) : List MHook :=
  if recordsOverride st agent_id hook_type then
    match agent_id with
    | some a =>
      match alGet st.agent_hooks a with
      | some d => (alGet d hook_type).getD []
      | none => []
    | none => []
  else
    let hooks := (alGet st.global_hooks hook_type).getD []
    let agentPart :=
      match agent_id with
      | some a =>
        if a ≠ "" then
          match alGet st.agent_hooks a with
          | some d => (alGet d hook_type).getD []
          | none => []
        else []
      | none => []
    hooks ++ agentPart

/-- Step of the deny-free part of the aggregation loop on the running result:
an `ask` decision records itself (advisory, the loop continues). -/
def applyAsk (final_result result : HookResult) : HookResult :=
  if result.decision = "ask" then { final_result with decision := "ask", reason := result.reason }
  else final_result

/-- Step of the aggregation loop on the chained arguments: a legacy
`modified_args` replaces them; otherwise an `updated_input` replaces them
with its JSON encoding; otherwise they are unchanged. -/
def applyArgs (modified_args : String) (result : HookResult) : String :=
  match result.modified_args with
  | some m => m
  | none =>
    match result.updated_input with
    | some u => Json.dumps (Json.obj u)
    | none => modified_args

/-- Step of the aggregation loop on the collected injections: a truthy
(non-empty) `inject` dict is appended. -/
def applyInj (all_injections : List InjDict) (result : HookResult) : List InjDict :=
  match result.inject with
  | some inj => if inj = [] then all_injections else all_injections ++ [inj]
  | none => all_injections

/-- The reason of the deny produced by the short-circuit:
`result.reason or result.metadata.get("reason", "Denied by hook <name>")`. -/
def denyReason (result : HookResult) (hookName : String) : String :=
  pyOr result.reason (dictGetD result.metadata "reason" ("Denied by hook " ++ hookName))

/-- The tail of `execute_hooks` after the loop: surface the chained arguments
only when they differ from the originals; when any injection was collected,
join the truthy `content` fields with newlines and take `strategy` from the
last collected injection (defaulting to "tool_result"); an all-empty combined
content leaves the result without injection. -/
def finishResult (arguments : String) (final_result : HookResult) (modified_args : String)
    (all_injections : List InjDict) : HookResult :=
  let fr := { final_result with
    modified_args := if modified_args = arguments then none else some modified_args }
  if all_injections = [] then fr
  else
    let combined_content :=
      String.intercalate "\n" (all_injections.filterMap (fun inj => truthyGet inj "content"))
    if combined_content = "" then fr
    else { fr with inject := some [("content", combined_content),
      ("strategy", dictGetD ((all_injections.getLast?).getD []) "strategy" "tool_result")] }

/-- The `for hook in matching_hooks` loop of `execute_hooks`, instrumented
with the invocation log (hook name, arguments passed).  A deny (legacy
`allowed=False` or `decision="deny"`) returns immediately with a fresh deny
result; an exception escaping a hook is absorbed (fail open);
otherwise ask/arguments/injections accumulate. -/
def hookLoop : List MHook → String → HookResult → String → List InjDict →
    List (String × String) → HookResult × List (String × String)
  | [], arguments, final_result, modified_args, all_injections, log =>
    (finishResult arguments final_result modified_args all_injections, log)
  | hook :: rest, arguments, final_result, modified_args, all_injections, log =>
    let log2 := log ++ [(hook.name, modified_args)]
    match hook.run modified_args with
    | none => hookLoop rest arguments final_result modified_args all_injections log2
    | some result =>
      if result.allowed = false ∨ result.decision = "deny" then
        (HookResult.deny (some (denyReason result hook.name)), log2)
      else
        hookLoop rest arguments (applyAsk final_result result) (applyArgs modified_args result)
          (applyInj all_injections result) log2

/-- `GeneralHookManager.execute_hooks` on an already-resolved hook list:
allow with no hook invoked when the list, or its matching sublist, is empty;
otherwise run the loop with `final_result = allow()` and
`modified_args = arguments`. -/
def executeHooksOn (hooks : List MHook) (function_name arguments : String) :
    HookResult × List (String × String) :=
  if hooks.isEmpty then (HookResult.allow, [])
  else
    let matching_hooks := hooks.filter (fun h => MHook.matches h function_name)
    if matching_hooks.isEmpty then (HookResult.allow, [])
    else hookLoop matching_hooks arguments HookResult.allow arguments [] []

/-- `GeneralHookManager.execute_hooks`: resolve the effective hooks for the
agent recorded in the context, then aggregate. -/
def execute_hooks (st : GHMState) (hook_type : HookType) (function_name arguments : String)
    (agent_id : Option String) : HookResult × List (String × String) :=
  executeHooksOn (get_hooks_for_agent st agent_id hook_type) function_name arguments

/-- A hook behaviour that never denies: it raises (and is absorbed) or
returns a result that is allowed and not a deny. -/
def optNoDeny : Option HookResult → Prop
  | none => True
  | some r => r.allowed = true ∧ r.decision ≠ "deny"

/-- The injections a run collects from a list of (hook name, returned result)
pairs: the truthy (non-empty) `inject` dicts, in hook order. -/
def collectInjs (rs : List (String × HookResult)) : List InjDict :=
  rs.filterMap (fun p =>
    match p.2.inject with
    | some inj => if inj = [] then none else some inj
    | none => none)

/-- The invocation log of a run over hooks with fixed results: each hook is
invoked with the arguments as chained so far. -/
def constLog (modified_args : String) : List (String × HookResult) → List (String × String)
  | [] => []
  | p :: t => (p.1, modified_args) :: constLog (applyArgs modified_args p.2) t

/-- The contribution of one result to the collected injections. -/
def injOf (r : HookResult) : List InjDict :=
  match r.inject with
  | some inj => if inj = [] then [] else [inj]
  | none => []

/- Concrete inputs used by witnesses and counterexamples. -/

/-- A deny without any reason (exercises the synthesized reason). -/
def denyNoReason : HookResult := HookResult.deny none

/-- A result carrying BOTH the legacy `modified_args` field and an
`updated_input` — as `HookResult(modified_args="MA", updated_input=...)`
yields. -/
def bothFieldsResult : HookResult :=
  HookResult.postInit { modified_args := some "MA", updated_input := some [("a", Json.num 1)] }

/-- A result whose injection dict is non-empty but carries no `content`. -/
def strategyOnlyInjection : HookResult :=
  HookResult.postInit { inject := some [("strategy", "s1")] }

/-- A result injecting the given content with the given strategy. -/
def injResult (content strategy : String) : HookResult :=
  HookResult.postInit { inject := some [("content", content), ("strategy", strategy)] }

/-- A result that only rewrites the arguments via `updated_input`. -/
def updResult (u : List (String × Json)) : HookResult :=
  HookResult.postInit { updated_input := some u }

/-- The two PostToolUse injecting hooks of the specification's test. -/
def rsInjPair : List (String × HookResult) :=
  [("h1", injResult "X" "tool_result"), ("h2", injResult "Y" "user_message")]

/-- A handler callable that always sleeps past the configured timeout. -/
def pySlowHook : PythonCallableHook :=
  ⟨"test", "*", 1, PyHandler.direct (fun _ => CallOutcome.timesOut)⟩

/-- A handler callable that always raises. -/
def pyFailingHook : PythonCallableHook :=
  ⟨"test", "*", 30, PyHandler.direct (fun _ => CallOutcome.raises "Hook crashed!")⟩

/-- A benign hook preceding the denier. -/
def c1Pre : List MHook := [constHook "benign" HookResult.allow]

/-- A hook that denies with no reason. -/
def c1Denier : MHook := constHook "denier" denyNoReason

/-- A hook after the denier, which must never run. -/
def c1Post : List MHook := [constHook "other" HookResult.allow]

/-- Well-formed stdout of a subprocess asking for a deny. -/
def denyStdout : Json := Json.obj [("decision", Json.str "deny")]

/-- A command hook matching every tool. -/
def wCmdHook : ExternalCommandHook := ⟨"cmd", "/hooks/check.py", "*", 30⟩

/- Helper lemmas. -/

@[simp] theorem constHook_name (n : String) (r : HookResult) : (constHook n r).name = n := rfl

@[simp] theorem constHook_run (n : String) (r : HookResult) (a : String) :
    (constHook n r).run a = some r := rfl

@[simp] theorem allow_allowed : HookResult.allow.allowed = true := rfl

@[simp] theorem allow_decision : HookResult.allow.decision = "allow" := rfl

@[simp] theorem allow_modified_args : HookResult.allow.modified_args = none := rfl

@[simp] theorem allow_inject : HookResult.allow.inject = none := rfl

@[simp] theorem deny_allowed (s : Option String) : (HookResult.deny s).allowed = false := rfl

@[simp] theorem deny_decision (s : Option String) : (HookResult.deny s).decision = "deny" := rfl

@[simp] theorem deny_reason_field (s : Option String) : (HookResult.deny s).reason = s := rfl

@[simp] theorem deny_modified_args (s : Option String) :
    (HookResult.deny s).modified_args = none := rfl

@[simp] theorem deny_inject (s : Option String) : (HookResult.deny s).inject = none := rfl

theorem nil_mem_tailsOf : ∀ (l : List Char), [] ∈ tailsOf l := by
  intro l
  induction l with
  | nil => simp [tailsOf]
  | cons c t ih =>
    simp only [tailsOf, List.mem_cons]
    exact Or.inr ih

theorem fnmatch_star (s : String) : fnmatch s "*" = true := by
  have hp : parseGlob "*".data = [GlobTok.star] := rfl
  simp only [fnmatch, hp, globTokMatch]
  exact List.any_eq_true.mpr ⟨[], nil_mem_tailsOf _, rfl⟩

theorem parseMatcher_star : parseMatcher "*" = ["*"] := rfl

@[simp] theorem constHook_matches (n : String) (r : HookResult) (toolName : String) :
    MHook.matches (constHook n r) toolName = true := by
  show patternMatches "*" toolName = true
  simp [patternMatches, parseMatcher_star, fnmatch_star]

theorem filter_eq_self_of_all {α : Type} (p : α → Bool) :
    ∀ l : List α, (∀ x ∈ l, p x = true) → l.filter p = l := by
  intro l h
  induction l with
  | nil => rfl
  | cons a t ih =>
    have ha := h a (by simp)
    simp only [List.filter_cons, ha, if_true]
    rw [ih (fun x hx => h x (by simp [hx]))]

theorem executeHooksOn_matching (hooks : List MHook) (fname args : String)
    (hmatch : ∀ h ∈ hooks, MHook.matches h fname = true) (hne : hooks ≠ []) :
    executeHooksOn hooks fname args = hookLoop hooks args HookResult.allow args [] [] := by
  have h1 : hooks.isEmpty = false := by
    cases hooks with
    | nil => exact absurd rfl hne
    | cons a t => rfl
  simp only [executeHooksOn, h1, filter_eq_self_of_all _ hooks hmatch, Bool.false_eq_true,
    if_false]

theorem hookLoop_deny (hk : MHook) (post : List MHook) (rk : HookResult)
    (hrun : ∀ a, hk.run a = some rk)
    (hdeny : rk.allowed = false ∨ rk.decision = "deny") :
    ∀ (pre : List MHook), (∀ h ∈ pre, ∀ a, optNoDeny (h.run a)) →
    ∀ (arguments : String) (final_result : HookResult) (modified_args : String)
      (all_injections : List InjDict) (log : List (String × String)),
      (hookLoop (pre ++ hk :: post) arguments final_result modified_args all_injections log).1
          = HookResult.deny (some (denyReason rk hk.name))
        ∧ (hookLoop (pre ++ hk :: post) arguments final_result modified_args all_injections log).2.map
            Prod.fst
          = log.map Prod.fst ++ pre.map MHook.name ++ [hk.name] := by
  intro pre
  induction pre with
  | nil =>
    intro hpre arguments final_result modified_args all_injections log
    have hstep : hookLoop ([] ++ hk :: post) arguments final_result modified_args all_injections log
        = (HookResult.deny (some (denyReason rk hk.name)), log ++ [(hk.name, modified_args)]) := by
      simp only [List.nil_append, hookLoop, hrun modified_args]
      rw [if_pos hdeny]
    rw [hstep]
    exact ⟨rfl, by simp⟩
  | cons h pre ih =>
    intro hpre arguments final_result modified_args all_injections log
    have hh0 : ∀ a, optNoDeny (h.run a) := hpre h (by simp)
    have hrest : ∀ x ∈ pre, ∀ a, optNoDeny (x.run a) := fun x hx => hpre x (by simp [hx])
    simp only [List.cons_append, hookLoop]
    cases hh : h.run modified_args with
    | none =>
      dsimp only
      have hrec := ih hrest arguments final_result modified_args all_injections
        (log ++ [(h.name, modified_args)])
      refine ⟨hrec.1, ?_⟩
      simp only [List.append_eq]
      rw [hrec.2]
      simp
    | some r =>
      dsimp only
      have hr : r.allowed = true ∧ r.decision ≠ "deny" := by
        have := hh0 modified_args
        rw [hh] at this
        exact this
      have hcon : ¬(r.allowed = false ∨ r.decision = "deny") := by
        rintro (hc | hc)
        · rw [hr.1] at hc
          exact absurd hc (by simp)
        · exact hr.2 hc
      rw [if_neg hcon]
      have hrec := ih hrest arguments (applyAsk final_result r) (applyArgs modified_args r)
        (applyInj all_injections r) (log ++ [(h.name, modified_args)])
      refine ⟨hrec.1, ?_⟩
      simp only [List.append_eq]
      rw [hrec.2]
      simp

theorem applyInj_eq (all_injections : List InjDict) (r : HookResult) :
    applyInj all_injections r = all_injections ++ injOf r := by
  simp only [applyInj, injOf]
  cases r.inject with
  | none => simp
  | some inj =>
    by_cases hinj : inj = []
    · simp [hinj]
    · simp [hinj]

theorem collectInjs_cons (p : String × HookResult) (t : List (String × HookResult)) :
    collectInjs (p :: t) = injOf p.2 ++ collectInjs t := by
  simp only [collectInjs, injOf, List.filterMap_cons]
  cases p.2.inject with
  | none => simp
  | some inj =>
    by_cases hinj : inj = []
    · simp [hinj]
    · simp [hinj]

theorem hookLoop_const : ∀ (rs : List (String × HookResult)),
    (∀ p ∈ rs, p.2.allowed = true ∧ p.2.decision ≠ "deny") →
    ∀ (arguments : String) (final_result : HookResult) (modified_args : String)
      (all_injections : List InjDict) (log : List (String × String)),
      hookLoop (rs.map (fun p => constHook p.1 p.2)) arguments final_result modified_args
          all_injections log
        = (finishResult arguments
            (rs.foldl (fun acc p => applyAsk acc p.2) final_result)
            (rs.foldl (fun acc p => applyArgs acc p.2) modified_args)
            (all_injections ++ collectInjs rs),
           log ++ constLog modified_args rs) := by
  intro rs
  induction rs with
  | nil =>
    intro hnd arguments final_result modified_args all_injections log
    simp [hookLoop, collectInjs, constLog]
  | cons p t ih =>
    intro hnd arguments final_result modified_args all_injections log
    obtain ⟨hp1, hp2⟩ := hnd p (by simp)
    have ht : ∀ q ∈ t, q.2.allowed = true ∧ q.2.decision ≠ "deny" :=
      fun q hq => hnd q (by simp [hq])
    have hcon : ¬(p.2.allowed = false ∨ p.2.decision = "deny") := by
      rintro (hc | hc)
      · rw [hp1] at hc
        exact absurd hc (by simp)
      · exact hp2 hc
    simp only [List.map_cons, hookLoop, constHook_name, constHook_run]
    rw [if_neg hcon]
    rw [ih ht arguments (applyAsk final_result p.2) (applyArgs modified_args p.2)
      (applyInj all_injections p.2) (log ++ [(p.1, modified_args)])]
    simp only [List.foldl_cons, constLog, applyInj_eq, collectInjs_cons, List.append_assoc,
      List.cons_append, List.singleton_append, List.nil_append]

theorem foldAsk_inject (rs : List (String × HookResult)) :
    ∀ (final_result : HookResult),
      (rs.foldl (fun acc p => applyAsk acc p.2) final_result).inject = final_result.inject := by
  induction rs with
  | nil => intro fr; rfl
  | cons p t ih =>
    intro fr
    simp only [List.foldl_cons]
    rw [ih]
    simp only [applyAsk]
    by_cases hd : p.2.decision = "ask"
    · rw [if_pos hd]
    · rw [if_neg hd]

@[simp] theorem update_margs_inject (r : HookResult) (v : Option String) :
    ({ r with modified_args := v } : HookResult).inject = r.inject := rfl

theorem postInit_sync (r : HookResult) :
    ((HookResult.postInit r).allowed = false ↔ (HookResult.postInit r).decision = "deny") := by
  simp only [HookResult.postInit]
  by_cases h1 : r.allowed = false
  · rw [if_pos h1]
    simp [h1]
  · rw [if_neg h1]
    by_cases h2 : r.decision = "deny"
    · rw [if_pos h2]
      simp [h2]
    · rw [if_neg h2]
      exact iff_of_false h1 h2

/- The claims. -/

/-- Claim C7: a matcher string is split on `|` into trimmed sub-patterns and
`matches(tool_name)` is true iff the tool name fully matches at least one
sub-pattern under shell-glob semantics; an empty matcher string behaves as
the single sub-pattern `*` and thus matches every tool name. -/
theorem matcher_or_glob_semantics (matcher toolName : String) :
    (patternMatches matcher toolName = true ↔
      ∃ p ∈ parseMatcher matcher, fnmatch toolName p = true)
    ∧ parseMatcher "" = ["*"]
    ∧ patternMatches "" toolName = true := by
  refine ⟨?_, rfl, ?_⟩
  · simp [patternMatches, List.any_eq_true]
  · have hp : parseMatcher "" = ["*"] := rfl
    simp [patternMatches, hp, fnmatch_star]

/-- Claim C10: a non-empty matcher string all of whose `|`-split pieces strip
to the empty string parses to an empty sub-pattern list, and such a hook
matches no tool name at all (it does not fall back to `*`). -/
theorem blank_matcher_matches_nothing (matcher : String) (hne : matcher ≠ "")
    (hblank : ∀ piece ∈ splitOnPipe matcher.data, pyStripL piece = []) :
    parseMatcher matcher = [] ∧ ∀ toolName, patternMatches matcher toolName = false := by
  have hfil : ∀ l : List (List Char), (∀ x ∈ l, pyStripL x = []) →
      ((l.map (fun piece => pyStripL piece)).filter (fun piece => piece ≠ [])) = [] := by
    intro l
    induction l with
    | nil => intro _; rfl
    | cons a t ih =>
      intro h
      have ha := h a (by simp)
      have ht := ih (fun x hx => h x (by simp [hx]))
      simpa [List.filter_cons, ha] using ht
  have hp : parseMatcher matcher = [] := by
    simp only [parseMatcher, if_neg hne]
    rw [hfil _ hblank]
    rfl
  exact ⟨hp, fun toolName => by simp [patternMatches, hp]⟩

/-- Witness for C10 at the concrete blank matchers `"|"` and `" "`. -/
theorem blank_matcher_matches_nothing_witness :
    ("|" ≠ "" ∧ ∀ piece ∈ splitOnPipe "|".data, pyStripL piece = [])
    ∧ (parseMatcher "|" = [] ∧ ∀ toolName, patternMatches "|" toolName = false)
    ∧ parseMatcher " " = [] := by
  refine ⟨⟨by decide, by decide⟩, blank_matcher_matches_nothing "|" (by decide) (by decide), ?_⟩
  exact (blank_matcher_matches_nothing " " (by decide) (by decide)).1

/-- Claim C9: after any construction of a `HookResult` — directly (every
construction runs `__post_init__`) or via `from_dict` — the legacy boolean
`allowed` and `decision` are in sync: `allowed = false` iff
`decision = "deny"`, for every combination of input field values. -/
theorem allowed_decision_sync
    (allowed : Bool) (metadata : List (String × String)) (modified_args : Option String)
    (decision : String) (reason : Option String)
    (updated_input : Option (List (String × Json))) (inject : Option InjDict)
    (data : HRDict) :
    ((HookResult.postInit
        ⟨allowed, metadata, modified_args, decision, reason, updated_input, inject⟩).allowed = false
      ↔ (HookResult.postInit
        ⟨allowed, metadata, modified_args, decision, reason, updated_input, inject⟩).decision = "deny")
    ∧ ((HookResult.from_dict data).allowed = false
      ↔ (HookResult.from_dict data).decision = "deny") :=
  ⟨postInit_sync _, postInit_sync _⟩

/-- Claim C4: `get_hooks_for_agent` returns exactly the agent's hooks for the
phase (no global hooks) when the registry records an override for that agent
and phase, and otherwise the global hooks followed by the agent's hooks, each
in registration order. -/
theorem effective_hooks_formula (st : GHMState) (agent_id : Option String) (hook_type : HookType) :
    get_hooks_for_agent st agent_id hook_type =
      if recordsOverride st agent_id hook_type then agentHooksOf st agent_id hook_type
      else globalHooksOf st hook_type ++ agentHooksOf st agent_id hook_type := by
  simp only [get_hooks_for_agent]
  by_cases ho : recordsOverride st agent_id hook_type = true
  · rw [if_pos ho, if_pos ho]
    cases agent_id with
    | none => simp [recordsOverride] at ho
    | some a =>
      by_cases ha : a = ""
      · subst ha
        simp [recordsOverride] at ho
      · simp [agentHooksOf, ha]
  · rw [if_neg ho, if_neg ho]
    cases agent_id with
    | none => simp [agentHooksOf, globalHooksOf]
    | some a => simp [agentHooksOf, globalHooksOf]

/-- Claim C1: when an ordered list of matching hooks contains a hook `hk`
that denies (legacy `allowed=false` or `decision="deny"`), `execute_hooks`
returns a deny immediately, with the hook's own reason — its `reason` field,
falling back to its legacy `metadata["reason"]`, falling back to the
synthesized "Denied by hook <name>" when the hook gave none — the hooks after
`hk` are never invoked (the invocation log ends at `hk`), and the returned
result surfaces no accumulated argument mutation and no injection. -/
theorem deny_short_circuits (pre post : List MHook) (hk : MHook) (rk : HookResult)
    (function_name arguments : String)
    (hmatch : ∀ h ∈ pre ++ hk :: post, MHook.matches h function_name = true)
    (hpre : ∀ h ∈ pre, ∀ a, optNoDeny (h.run a))
    (hrun : ∀ a, hk.run a = some rk)
    (hdeny : rk.allowed = false ∨ rk.decision = "deny") :
    (executeHooksOn (pre ++ hk :: post) function_name arguments).1
        = HookResult.deny (some (denyReason rk hk.name))
    ∧ ((executeHooksOn (pre ++ hk :: post) function_name arguments).2).map Prod.fst
        = pre.map MHook.name ++ [hk.name]
    ∧ (executeHooksOn (pre ++ hk :: post) function_name arguments).1.modified_args = none
    ∧ (executeHooksOn (pre ++ hk :: post) function_name arguments).1.inject = none := by
  have hne : pre ++ hk :: post ≠ [] := by simp
  rw [executeHooksOn_matching _ function_name arguments hmatch hne]
  have hmain := hookLoop_deny hk post rk hrun hdeny pre hpre arguments HookResult.allow
    arguments [] []
  refine ⟨hmain.1, ?_, ?_, ?_⟩
  · rw [hmain.2]
    simp
  · rw [hmain.1]
    simp
  · rw [hmain.1]
    simp

/-- Witness for C1: benign hook, then a reasonless denier, then a hook that
must never run; the pipeline denies with the synthesized reason and the log
stops at the denier. -/
theorem deny_short_circuits_witness :
    ((∀ h ∈ c1Pre ++ c1Denier :: c1Post, MHook.matches h "Write" = true)
      ∧ (∀ h ∈ c1Pre, ∀ a, optNoDeny (h.run a))
      ∧ (∀ a, c1Denier.run a = some denyNoReason)
      ∧ (denyNoReason.allowed = false ∨ denyNoReason.decision = "deny"))
    ∧ (executeHooksOn (c1Pre ++ c1Denier :: c1Post) "Write" "\x7b\x7d").1
        = HookResult.deny (some "Denied by hook denier")
    ∧ ((executeHooksOn (c1Pre ++ c1Denier :: c1Post) "Write" "\x7b\x7d").2).map Prod.fst
        = ["benign", "denier"] := by
  have hmatch : ∀ h ∈ c1Pre ++ c1Denier :: c1Post, MHook.matches h "Write" = true := by
    intro h hm
    simp only [c1Pre, c1Denier, c1Post, List.cons_append, List.nil_append, List.mem_cons,
      List.not_mem_nil, or_false] at hm
    rcases hm with rfl | rfl | rfl <;> exact constHook_matches _ _ _
  have hpre : ∀ h ∈ c1Pre, ∀ a, optNoDeny (h.run a) := by
    intro h hm a
    simp only [c1Pre, List.mem_singleton] at hm
    subst hm
    exact ⟨rfl, by decide⟩
  have hrun : ∀ a, c1Denier.run a = some denyNoReason := fun a => rfl
  have hdeny : denyNoReason.allowed = false ∨ denyNoReason.decision = "deny" := Or.inl rfl
  have h := deny_short_circuits c1Pre c1Post c1Denier denyNoReason "Write" "\x7b\x7d"
    hmatch hpre hrun hdeny
  refine ⟨⟨hmatch, hpre, hrun, hdeny⟩, ?_, ?_⟩
  · rw [h.1]
    rfl
  · rw [h.2.1]
    rfl

/-- Counterexample to C5 as stated: hook h1 returns `updated_input=a:1`
TOGETHER WITH the legacy `modified_args="MA"`; the next hook receives `"MA"`,
not the JSON encoding of the updated input (the legacy field takes
precedence). -/
theorem chained_mutation_counterexample :
    bothFieldsResult.updated_input = some [("a", Json.num 1)]
    ∧ ((executeHooksOn [constHook "h1" bothFieldsResult, constHook "h2" HookResult.allow]
        "Write" "orig").2
      = [("h1", "orig"), ("h2", "MA")])
    ∧ "MA" ≠ Json.dumps (Json.obj [("a", Json.num 1)]) := by
  refine ⟨rfl, by decide, by decide⟩

/-- Claim C5 (amended): when a hook returns `updated_input` U1 and no legacy
`modified_args` (which takes precedence when both are present), the next hook
is invoked with the JSON encoding of U1 rather than the original arguments;
when that hook in turn returns `updated_input` U2, the final result's
modified-arguments field is the JSON encoding of U2, and is nil when that
equals the original tool input. -/
theorem chained_mutation_amended (n1 n2 function_name arguments : String)
    (U1 U2 : List (String × Json)) :
    (executeHooksOn [constHook n1 (updResult U1), constHook n2 (updResult U2)]
        function_name arguments).2
      = [(n1, arguments), (n2, Json.dumps (Json.obj U1))]
    ∧ (executeHooksOn [constHook n1 (updResult U1), constHook n2 (updResult U2)]
        function_name arguments).1.modified_args
      = (if Json.dumps (Json.obj U2) = arguments then none
         else some (Json.dumps (Json.obj U2))) := by
  have hmatch : ∀ h ∈ [constHook n1 (updResult U1), constHook n2 (updResult U2)],
      MHook.matches h function_name = true := by
    intro h hm
    simp only [List.mem_cons, List.not_mem_nil, or_false] at hm
    rcases hm with rfl | rfl <;> exact constHook_matches _ _ _
  rw [executeHooksOn_matching _ function_name arguments hmatch (by simp)]
  have hmap : [constHook n1 (updResult U1), constHook n2 (updResult U2)]
      = ([(n1, updResult U1), (n2, updResult U2)]).map (fun p => constHook p.1 p.2) := rfl
  rw [hmap]
  have hnd : ∀ p ∈ [(n1, updResult U1), (n2, updResult U2)],
      p.2.allowed = true ∧ p.2.decision ≠ "deny" := by
    intro p hm
    have hdec : ∀ u : List (String × Json), (updResult u).decision ≠ "deny" := by
      intro u hu
      have hlit : "allow" = "deny" := hu
      exact absurd hlit (by decide)
    simp only [List.mem_cons, List.not_mem_nil, or_false] at hm
    rcases hm with rfl | rfl <;> exact ⟨rfl, hdec _⟩
  rw [hookLoop_const [(n1, updResult U1), (n2, updResult U2)] hnd arguments HookResult.allow
    arguments [] []]
  exact ⟨rfl, rfl⟩

/-- Counterexample to C6 as stated: a single hook returns the non-empty
injection dict with a strategy but no content; the set of injections is
non-empty and no deny occurred, yet the final result carries NO injection. -/
theorem injection_union_counterexample :
    strategyOnlyInjection.inject = some [("strategy", "s1")]
    ∧ ((executeHooksOn [constHook "h1" strategyOnlyInjection] "Write" "args").1).inject
      = none := by
  exact ⟨rfl, by decide⟩

/-- Claim C6 (amended): with no deny, the final result carries an injection
iff some collected (non-empty) injection dict has a truthy (non-empty)
`content`; its content is the newline-join of those non-empty contents in
hook order, and its strategy is the strategy of the last collected injection
(defaulting to "tool_result"); otherwise — in particular with no injections —
it carries none. -/
theorem injection_union_amended (rs : List (String × HookResult))
    (function_name arguments : String)
    (hnd : ∀ p ∈ rs, p.2.allowed = true ∧ p.2.decision ≠ "deny") :
    ((executeHooksOn (rs.map (fun p => constHook p.1 p.2)) function_name arguments).1).inject
      = (if collectInjs rs = [] then none
         else
           if String.intercalate "\n"
               ((collectInjs rs).filterMap (fun inj => truthyGet inj "content")) = "" then none
           else some [("content", String.intercalate "\n"
               ((collectInjs rs).filterMap (fun inj => truthyGet inj "content"))),
             ("strategy", dictGetD (((collectInjs rs).getLast?).getD []) "strategy"
               "tool_result")]) := by
  by_cases hrs : rs = []
  · subst hrs
    simp [executeHooksOn, collectInjs]
  · have hne : rs.map (fun p => constHook p.1 p.2) ≠ [] :=
      fun hmn => hrs (List.map_eq_nil_iff.mp hmn)
    have hmatch : ∀ h ∈ rs.map (fun p => constHook p.1 p.2),
        MHook.matches h function_name = true := by
      intro h hm
      rcases List.mem_map.mp hm with ⟨q, hq, rfl⟩
      exact constHook_matches _ _ _
    rw [executeHooksOn_matching _ function_name arguments hmatch hne]
    rw [hookLoop_const rs hnd arguments HookResult.allow arguments [] []]
    simp only [List.nil_append, finishResult]
    by_cases hc : collectInjs rs = []
    · rw [if_pos hc, if_pos hc]
      simp [foldAsk_inject]
    · rw [if_neg hc, if_neg hc]
      by_cases hcc : String.intercalate "\n"
          ((collectInjs rs).filterMap (fun inj => truthyGet inj "content")) = ""
      · rw [if_pos hcc, if_pos hcc]
        simp [foldAsk_inject]
      · rw [if_neg hcc, if_neg hcc]

/-- Witness for C6 (amended) at the specification's test: injections
`X`/`tool_result` then `Y`/`user_message` combine to content `X\nY` with the
last writer's strategy. -/
theorem injection_union_amended_witness :
    (∀ p ∈ rsInjPair, p.2.allowed = true ∧ p.2.decision ≠ "deny")
    ∧ ((executeHooksOn (rsInjPair.map (fun p => constHook p.1 p.2)) "Write" "\x7b\x7d").1).inject
      = some [("content", "X\nY"), ("strategy", "user_message")] := by
  have hnd : ∀ p ∈ rsInjPair, p.2.allowed = true ∧ p.2.decision ≠ "deny" := by decide
  refine ⟨hnd, ?_⟩
  rw [injection_union_amended rsInjPair "Write" "\x7b\x7d" hnd]
  decide

/-- Claim C2 (the source's actual behavior at the repository's own test
inputs): a callable hook whose handler sleeps past its timeout, and one whose
handler raises, both yield allow — `PythonCallableHook` accepts no
`fail_closed` parameter and unconditionally fails open, where the claim, the
specification and the repository's own tests require a deny under
`fail_closed=true`. -/
theorem callable_fault_fails_open :
    PythonCallableHook_execute pySlowHook "tool_name" "\x7b\x7d" = HookResult.allow
    ∧ PythonCallableHook_execute pyFailingHook "tool_name" "\x7b\x7d" = HookResult.allow :=
  ⟨rfl, rfl⟩

/-- Claim C3: a command hook whose subprocess exits within the timeout with a
non-zero exit code yields allow, whatever the stdout parsed to — there is no
failure-policy override in the class. -/
theorem command_nonzero_exit_allows (h : ExternalCommandHook) (function_name : String)
    (returncode : Int) (stdoutJson : Option Json)
    (hmatch : patternMatches h.matcher function_name = true)
    (hrc : returncode ≠ 0) :
    ExternalCommandHook_execute h function_name (ProcOutcome.exited returncode stdoutJson)
      = HookResult.allow := by
  simp only [ExternalCommandHook_execute]
  rw [if_pos hmatch]
  rw [if_pos hrc]

/-- Witness for C3 at the specification's test: exit code 1 with well-formed
stdout `decision=deny` still yields allow. -/
theorem command_nonzero_exit_allows_witness :
    (patternMatches wCmdHook.matcher "Write" = true ∧ (1 : Int) ≠ 0)
    ∧ ExternalCommandHook_execute wCmdHook "Write" (ProcOutcome.exited 1 (some denyStdout))
      = HookResult.allow :=
  ⟨⟨by decide, by decide⟩,
    command_nonzero_exit_allows wCmdHook "Write" 1 (some denyStdout) (by decide) (by decide)⟩

/-- Claim C8: a callable hook whose symbolic handler reference cannot be
imported is always a deny — there is no failure-policy setting to override
it — with a reason stating the import failure. -/
theorem unresolvable_handler_denies (name matcher p e : String) (timeout : Nat)
    (function_name arguments : String)
    (hp : p ≠ "")
    (hmatch : patternMatches matcher function_name = true) :
    PythonCallableHook_execute ⟨name, matcher, timeout, PyHandler.path p (Except.error e)⟩
        function_name arguments
      = HookResult.deny (some ("Hook import failed: " ++ e)) := by
  simp only [PythonCallableHook_execute]
  rw [if_pos hmatch]
  rw [if_neg hp]

/-- Witness for C8 at a concrete unresolvable module path. -/
theorem unresolvable_handler_denies_witness :
    ("no.such.module.fn" ≠ "" ∧ patternMatches "*" "Write" = true)
    ∧ PythonCallableHook_execute
        ⟨"bad", "*", 30, PyHandler.path "no.such.module.fn" (Except.error "No module named no")⟩
        "Write" "\x7b\x7d"
      = HookResult.deny (some ("Hook import failed: " ++ "No module named no")) :=
  ⟨⟨by decide, by decide⟩,
    unresolvable_handler_denies "bad" "*" "no.such.module.fn" "No module named no" 30
      "Write" "\x7b\x7d" (by decide) (by decide)⟩
